import Mathlib

/-!
Verification development for the `i-saw-that` watcher/backup engine.

The Go source (`watcher.go` plus the validation helpers shipped alongside it)
is shallowly embedded below.  Filesystem and clock interactions are modelled
as explicit inputs: the wall clock instant passed to `createBackup`, the
outcome of each copy attempt, the directory-validation results, and the
directory trees given to the tree comparator.  Machine floats (`float64
wait_time`, backup timestamps) are modelled as rationals; `int64(x)`
conversion from a float is truncation toward zero (`goTrunc`).
-/

/-- Wall-clock instant as returned by Go `time.Now()`: epoch seconds plus a
nanosecond part (`0 ≤ nsec < 1e9` where it matters). -/
structure GoTime where
  sec : Int
  nsec : Nat
deriving DecidableEq

/-- The `Backup` record from `watcher.go`: `Timestamp` is
`float64(t.Unix()) + float64(t.Nanosecond())/1e9`, `Path` the formatted
folder name.  `Name` and `Compressed` are carried but unused by the core. -/
structure Backup where
  name : String
  timestamp : Rat
  path : String
  compressed : Bool
deriving DecidableEq

/-- The timestamp value `createBackup` stores:
`float64(timestamp.Unix()) + float64(timestamp.Nanosecond())/1e9`.  The
`float64` arithmetic is idealized as exact rational arithmetic; the real
division and addition round to 52 bits of fraction, so at wall-clock epoch
magnitudes the program's stored value is a rounding of this rational and
does not determine the instant.  Nothing below relies on the exact value:
only on the fact that one captured instant feeds the expression. -/
def goTimestamp (t : GoTime) : Rat :=
  (t.sec : Rat) + (t.nsec : Rat) / 1000000000

/-- The retry loop of `createBackup` (`for range 100`): `copyOk i` is the
outcome of copy attempt `i`.  Returns the number of attempts executed and
whether any attempt succeeded (`break` on first success, `continue` plus a
100 ms sleep on failure). -/
def copyLoop (copyOk : Nat → Bool) : Nat → Nat → Nat × Bool
  | _, 0 => (0, false)
  | i, fuel + 1 =>
    if copyOk i then (1, true)
    else ((copyLoop copyOk (i + 1) fuel).1 + 1, (copyLoop copyOk (i + 1) fuel).2)

/-- Result of one `createBackup` call: the metadata list afterwards, how many
copy attempts ran, whether one succeeded, and whether `saveMetadata` and
`notifyObservers` were reached. -/
structure CreateBackupResult where
  metadata : List Backup
  copyAttempts : Nat
  copySucceeded : Bool
  metadataSaved : Bool
  observersNotified : Bool
deriving DecidableEq

/-- Shallow embedding of `Watcher.createBackup` (watcher.go).  `fmtFn`
models `timestamp.Format(folderFormatSnapshot)`, `destPathExists` the
`os.Stat(destinationPath)` collision guard, `copyOk` the outcome of each
`cp.Copy` attempt, `metadata` the history snapshot before the call. -/
def createBackup (fmtFn : GoTime → String) (now : GoTime) (destPathExists : Bool)
    (copyOk : Nat → Bool) (metadata : List Backup) : CreateBackupResult :=
  let timestampFolder := fmtFn now
  if destPathExists then
    ⟨metadata, 0, false, false, false⟩
  else
    let r := copyLoop copyOk 0 100
    let backup : Backup := ⟨"", goTimestamp now, timestampFolder, false⟩
    ⟨metadata ++ [backup], r.1, r.2, true, true⟩

theorem copyLoop_le (copyOk : Nat → Bool) : ∀ fuel i, (copyLoop copyOk i fuel).1 ≤ fuel := by
  intro fuel
  induction fuel with
  | zero => intro i; simp [copyLoop]
  | succ n ih =>
    intro i
    simp only [copyLoop]
    by_cases h : copyOk i
    · simp [h]
    · simp only [h, if_false]
      have := ih (i + 1)
      simp only [Bool.false_eq_true, if_false]
      omega

theorem copyLoop_pos (copyOk : Nat → Bool) : ∀ fuel i, 0 < fuel → 1 ≤ (copyLoop copyOk i fuel).1 := by
  intro fuel i h
  cases fuel with
  | zero => omega
  | succ n =>
    simp only [copyLoop]
    by_cases hc : copyOk i
    · simp [hc]
    · simp [hc]

theorem copyLoop_succeeds (copyOk : Nat → Bool) :
    ∀ fuel i, (copyLoop copyOk i fuel).2 = true ↔ ∃ j, j < fuel ∧ copyOk (i + j) = true := by
  intro fuel
  induction fuel with
  | zero => intro i; simp [copyLoop]
  | succ n ih =>
    intro i
    simp only [copyLoop]
    by_cases h : copyOk i
    · simp only [h, if_true]
      exact ⟨fun _ => ⟨0, by omega, by simpa using h⟩, fun _ => trivial⟩
    · simp only [h, Bool.false_eq_true, if_false]
      rw [ih (i + 1)]
      constructor
      · intro ⟨j, hj, hc⟩
        exact ⟨j + 1, by omega, by rwa [show i + (j + 1) = i + 1 + j by omega]⟩
      · intro ⟨j, hj, hc⟩
        match j, hc with
        | 0, hc => exact absurd (by simpa using hc) h
        | j + 1, hc => exact ⟨j, by omega, by rwa [show i + 1 + j = i + (j + 1) by omega]⟩

/-- C3: a single snapshot attempt (`createBackup`) has the claimed history
postcondition.  If the computed target path already exists it aborts: no
copy attempt runs, history is unchanged, nothing is persisted, nobody is
notified.  Otherwise between 1 and 100 copy attempts run, a success is
reported exactly when some attempt among the first 100 succeeds, and — copy
success or not — exactly one Backup record carrying the formatted folder
name and the wall-clock timestamp is appended, the history is persisted and
observers are notified. -/
theorem createBackup_history_postcondition (fmtFn : GoTime → String) (now : GoTime)
    (copyOk : Nat → Bool) (md : List Backup) :
    createBackup fmtFn now true copyOk md = ⟨md, 0, false, false, false⟩ ∧
    (createBackup fmtFn now false copyOk md).metadata
      = md ++ [⟨"", goTimestamp now, fmtFn now, false⟩] ∧
    1 ≤ (createBackup fmtFn now false copyOk md).copyAttempts ∧
    (createBackup fmtFn now false copyOk md).copyAttempts ≤ 100 ∧
    ((createBackup fmtFn now false copyOk md).copySucceeded = true
      ↔ ∃ j, j < 100 ∧ copyOk j = true) ∧
    (createBackup fmtFn now false copyOk md).metadataSaved = true ∧
    (createBackup fmtFn now false copyOk md).observersNotified = true := by
  refine ⟨rfl, rfl, ?_, ?_, ?_, rfl, rfl⟩
  · exact copyLoop_pos copyOk 100 0 (by omega)
  · exact copyLoop_le copyOk 100 0
  · have := copyLoop_succeeds copyOk 100 0
    simpa using this

/-- C10: the Backup record appended by a snapshot attempt is internally
consistent — `createBackup` captures one wall-clock instant (`now`,
`timestamp := time.Now()`) and uses exactly that instant both to render the
`path` folder name and to compute the recorded `timestamp`: the appended
record's `path` is `fmtFn` of the same `now` whose epoch seconds feed its
`timestamp` field.  (The program's `float64` rounding of the timestamp
value does not let the stored number recover the instant; the invariant
proved here is the two fields' common provenance, which is independent of
that precision.) -/
theorem backup_record_single_instant_consistency (fmtFn : GoTime → String)
    (copyOk : Nat → Bool) (md : List Backup) (now : GoTime) :
    ∃ b : Backup,
      (createBackup fmtFn now false copyOk md).metadata = md ++ [b] ∧
      b.path = fmtFn now ∧ b.timestamp = goTimestamp now :=
  ⟨⟨"", goTimestamp now, fmtFn now, false⟩, rfl, rfl, rfl⟩

/-!
The debounce loop (`backupLoop` in watcher.go) together with the
notification forwarder (`startFSNotifyWatcher`) and the capacity-1
`backupRequestChan` is modelled as a discrete-event simulation `debounceSim`.
Its inputs are the wall-clock times of the file-change notifications in
increasing order.  The loop state is the armed timer (`timer`, holding the
absolute expiry instant — the code always arms it `WaitTime` after the
receive) and `free`, the earliest instant the loop goroutine is again able
to receive (it is past `free` whenever a `createBackup` call, of duration
`d`, is still running).  A notification whose wall-clock time falls inside a
busy interval sits in the single-slot channel (or blocks its sender) and is
received the moment the loop returns to its `select`, i.e. at `free`; hence
the receive time of a notification at `t` is `max t free`.  While the loop
is inside `createBackup` no timer is armed (the timer variable was consumed
and is reset to nil right after the call), so at most the channel is ready
when the call returns — the simulation needs no further nondeterminism.
Each receive stops any armed timer and arms a fresh one `w` later; an armed
timer that expires before the next receive runs `createBackup` at its expiry
instant.  The returned list contains the instants at which snapshot attempts
start.
-/
def debounceSim (w d : Rat) : List Rat → Option Rat → Rat → List Rat → List Rat
  | [], none, _, acc => acc.reverse
  | [], some e, _, acc => (e :: acc).reverse
  | t :: ts, none, free, acc =>
    debounceSim w d ts (some (max t free + w)) (max t free) acc
  | t :: ts, some e, free, acc =>
    if e ≤ max t free then
      debounceSim w d ts (some (max t (e + d) + w)) (max t (e + d)) (e :: acc)
    else
      debounceSim w d ts (some (max t free + w)) (max t free) acc

/-- Separation pattern of a burst: starting after instant `p`, every next
notification arrives within less than `w` of the previous one. -/
def burstFrom (w : Rat) : Rat → List Rat → Prop
  | _, [] => True
  | p, t :: ts => p ≤ t ∧ t < p + w ∧ burstFrom w t ts

/-- Separation pattern of isolated changes: every next notification arrives
more than `w` after the previous one. -/
def spacedFrom (w : Rat) : Rat → List Rat → Prop
  | _, [] => True
  | p, t :: ts => p + w < t ∧ spacedFrom w t ts

theorem debounceSim_burst (w d : Rat) :
    ∀ ts p acc, burstFrom w p ts →
      debounceSim w d ts (some (p + w)) p acc = ((ts.getLastD p + w) :: acc).reverse := by
  intro ts
  induction ts with
  | nil => intro p acc _; simp [debounceSim]
  | cons t ts ih =>
    intro p acc hb
    obtain ⟨hpt, htw, hrest⟩ := hb
    have hmax : max t p = t := max_eq_left hpt
    have hlt : ¬ p + w ≤ t := not_le.mpr htw
    simp only [debounceSim, hmax]
    rw [if_neg hlt, ih t acc hrest, List.getLastD_cons]

theorem debounceSim_spaced (w : Rat) (hw : 0 < w) :
    ∀ ts p acc, spacedFrom w p ts →
      (debounceSim w 0 ts (some (p + w)) p acc).length = acc.length + ts.length + 1 := by
  intro ts
  induction ts with
  | nil => intro p acc _; simp [debounceSim]
  | cons t ts ih =>
    intro p acc hs
    obtain ⟨hgap, hrest⟩ := hs
    have hmaxp : max t p = t := max_eq_left (by linarith)
    have hle : p + w ≤ max t p := by rw [hmaxp]; linarith
    have hmaxe : max t (p + w + 0) = t := by
      rw [add_zero]; exact max_eq_left (by linarith)
    simp only [debounceSim, hle, if_true, hmaxe]
    rw [ih t ((p + w) :: acc) hrest]
    simp only [List.length_cons]
    omega

/-- C1: for a running watcher with wait-time `w > 0`, a burst of
notifications each separated by less than `w` makes the debounce loop
execute exactly one snapshot attempt — each notification received while the
timer is pending stops it and arms a fresh `w` timer — while notifications
each separated by more than `w` (snapshot attempts taken as instantaneous,
duration 0) produce one snapshot attempt per notification. -/
theorem debounce_burst_one_spaced_n (w d : Rat) (hw : 0 < w) (t : Rat) (ts : List Rat)
    (ht : 0 ≤ t) :
    (burstFrom w t ts → (debounceSim w d (t :: ts) none 0 []).length = 1) ∧
    (spacedFrom w t ts → (debounceSim w 0 (t :: ts) none 0 []).length = (t :: ts).length) := by
  have hmax : max t 0 = t := max_eq_left ht
  constructor
  · intro hb
    simp only [debounceSim, hmax]
    rw [debounceSim_burst w d ts t [] hb]
    simp
  · intro hs
    simp only [debounceSim, hmax]
    rw [debounceSim_spaced w hw ts t [] hs]
    simp

theorem debounce_burst_one_spaced_n_witness :
    (debounceSim 2 5 [0, 1, 2] none 0 []).length = 1 ∧
    (debounceSim 2 0 [0, 10, 20] none 0 []).length = 3 := by
  constructor
  · exact (debounce_burst_one_spaced_n 2 5 (by norm_num) 0 [1, 2] (by norm_num)).1
      (by norm_num [burstFrom])
  · exact (debounce_burst_one_spaced_n 2 0 (by norm_num) 0 [10, 20] (by norm_num)).2
      (by norm_num [spacedFrom])

theorem debounceSim_all_before (w d c : Rat) (hw : 0 < w) :
    ∀ ts acc, (∀ x ∈ ts, x ≤ c) →
      debounceSim w d ts (some (c + w)) c acc = ((c + w) :: acc).reverse := by
  intro ts
  induction ts with
  | nil => intro acc _; simp [debounceSim]
  | cons t ts ih =>
    intro acc hall
    have htc : t ≤ c := hall t (List.mem_cons_self t ts)
    have hmax : max t c = c := max_eq_right htc
    have hnle : ¬ c + w ≤ c := by linarith
    simp only [debounceSim, hmax]
    rw [if_neg hnle]
    exact ih acc (fun x hx => hall x (List.mem_cons_of_mem t hx))

/-- C2: notifications that arrive while a snapshot attempt is executing are
never lost.  If the in-flight attempt completes at instant `c` (so every
notification in the group has wall-clock time at most `c`: the first sits in
the capacity-1 `backupRequestChan`, later ones block their sender and are
all handed over when the loop returns to its select at `c`), then no matter
how many such notifications there are, exactly one further snapshot attempt
follows, at `c + w`, once the debounce window elapses. -/
theorem busy_notifications_coalesce_to_one (w d c t : Rat) (ts : List Rat) (hw : 0 < w)
    (hall : ∀ x ∈ t :: ts, x ≤ c) :
    debounceSim w d (t :: ts) none c [] = [c + w] := by
  have htc : t ≤ c := hall t (List.mem_cons_self t ts)
  have hmax : max t c = c := max_eq_right htc
  simp only [debounceSim, hmax]
  rw [debounceSim_all_before w d c hw ts [] (fun x hx => hall x (List.mem_cons_of_mem t hx))]
  simp

theorem busy_notifications_coalesce_to_one_witness :
    debounceSim 1 7 [2, 3, 4] none 5 [] = [6] := by
  have h : (5 : Rat) + 1 = 6 := by norm_num
  rw [← h]
  exact busy_notifications_coalesce_to_one 1 7 5 2 [3, 4] (by norm_num)
    (by intro x hx; fin_cases hx <;> norm_num)

/-!
Directory trees for the tree comparator (`doFoldersMatch` / `doFilesMatch`).
A node is a file (byte content plus modification time), a listable directory
with its ordered `os.ReadDir` entries, or a directory whose listing fails
(missing path, permission error, ...).  Entries pair the `DirEntry` name
with the subtree.
-/
inductive FSTree where
  | file : (content : List Nat) → (modTime : Int) → FSTree
  | dir : (entries : List (String × FSTree)) → FSTree
  | unreadableDir : FSTree

/-- The `DirEntry.IsDir()` flag of an entry. -/
def FSTree.entryIsDir : FSTree → Bool
  | .file _ _ => false
  | .dir _ => true
  | .unreadableDir => true

/-- Embedding of `doFilesMatch` (watcher.go): byte content must be equal and
the modification timestamps must be equal.  It is only invoked on two
non-directory entries, so the error branches of its `os.Stat`/`os.ReadFile`
calls are modelled by the non-file patterns. -/
def doFilesMatch : FSTree → FSTree → Except String Bool
  | FSTree.file sourceContent sourceMod, FSTree.file destContent destMod =>
    if sourceContent ≠ destContent then Except.ok false
    else if sourceMod ≠ destMod then Except.ok false
    else Except.ok true
  | _, _ => Except.error "error stating file"

mutual

/-- Embedding of `doFoldersMatch` (watcher.go): `os.ReadDir` both paths
(error if either cannot be listed), compare entry counts, then walk the
positional pairs. -/
def doFoldersMatch : FSTree → FSTree → Except String Bool
  | FSTree.dir sourceEntries, FSTree.dir destEntries =>
    if sourceEntries.length ≠ destEntries.length then Except.ok false
    else doEntriesMatch sourceEntries destEntries
  | FSTree.dir _, _ => Except.error "error reading destination directory"
  | _, _ => Except.error "error reading source directory"
termination_by a b => sizeOf a + sizeOf b

/-- The positional loop body of `doFoldersMatch`: names must agree, two
directories recurse, two files defer to `doFilesMatch`, a type mismatch is
no match. -/
def doEntriesMatch : List (String × FSTree) → List (String × FSTree) → Except String Bool
  | (sourceName, sourceTree) :: ss, (destName, destTree) :: ds =>
    if sourceName ≠ destName then Except.ok false
    else if sourceTree.entryIsDir && destTree.entryIsDir then
      match doFoldersMatch sourceTree destTree with
      | Except.error e => Except.error ("error comparing directories: " ++ e)
      | Except.ok false => Except.ok false
      | Except.ok true => doEntriesMatch ss ds
    else if !sourceTree.entryIsDir && !destTree.entryIsDir then
      match doFilesMatch sourceTree destTree with
      | Except.error e => Except.error ("error comparing files: " ++ e)
      | Except.ok false => Except.ok false
      | Except.ok true => doEntriesMatch ss ds
    else Except.ok false
  | _, _ => Except.ok true
termination_by xs ys => sizeOf xs + sizeOf ys

end

mutual

/-- Tree equality as the spec states it (TreeComparator, spec 4.2): list the
immediate entries of both paths; if counts differ, no match; every
positional pair must have equal names, equal kinds, matching subtrees for
directories and, for files, exact byte-content equality and exact
modification-timestamp equality. -/
def treesMatchSpec : FSTree → FSTree → Bool
  | FSTree.dir aEntries, FSTree.dir bEntries =>
    aEntries.length == bEntries.length && entriesMatchSpec aEntries bEntries
  | _, _ => false

/-- Positional pairs for `treesMatchSpec`. -/
def entriesMatchSpec : List (String × FSTree) → List (String × FSTree) → Bool
  | [], [] => true
  | (aName, aTree) :: ra, (bName, bTree) :: rb =>
    aName == bName && entryPairMatchSpec aTree bTree && entriesMatchSpec ra rb
  | _, _ => false
termination_by xs ys => sizeOf xs + sizeOf ys

/-- One positional pair for `treesMatchSpec`: kinds must agree, files match
on content and timestamp, directories match as subtrees. -/
def entryPairMatchSpec : FSTree → FSTree → Bool
  | FSTree.file aContent aMod, FSTree.file bContent bMod =>
    decide (aContent = bContent) && decide (aMod = bMod)
  | FSTree.dir aEntries, FSTree.dir bEntries =>
    aEntries.length == bEntries.length && entriesMatchSpec aEntries bEntries
  | _, _ => false
termination_by a b => sizeOf a + sizeOf b

end

mutual

/-- Every directory reachable in the tree is listable (no `unreadableDir`
anywhere). -/
def noUnreadable : FSTree → Bool
  | FSTree.file _ _ => true
  | FSTree.unreadableDir => false
  | FSTree.dir es => noUnreadableEntries es
termination_by t => sizeOf t

/-- `noUnreadable` over an entry list. -/
def noUnreadableEntries : List (String × FSTree) → Bool
  | [] => true
  | (_, t) :: rest => noUnreadable t && noUnreadableEntries rest
termination_by xs => sizeOf xs

end

/-- A path can be listed by `os.ReadDir` exactly when it is a readable
directory. -/
def listable : FSTree → Bool
  | FSTree.dir _ => true
  | _ => false

theorem doEntriesMatch_agrees : ∀ n ses des, sizeOf ses + sizeOf des ≤ n →
    noUnreadableEntries ses = true → noUnreadableEntries des = true →
    ses.length = des.length →
    doEntriesMatch ses des = Except.ok (entriesMatchSpec ses des) := by
  intro n
  induction n using Nat.strong_induction_on with
  | _ n ih =>
    intro ses des hsize hs hd hlen
    rcases ses with _ | ⟨⟨sn, st⟩, ss⟩
    · rcases des with _ | ⟨⟨dn, dt⟩, ds⟩
      · simp [doEntriesMatch, entriesMatchSpec]
      · simp at hlen
    · rcases des with _ | ⟨⟨dn, dt⟩, ds⟩
      · simp at hlen
      · simp only [noUnreadableEntries, Bool.and_eq_true] at hs hd
        obtain ⟨hst, hss⟩ := hs
        obtain ⟨hdt, hds⟩ := hd
        simp only [List.length_cons, Nat.add_right_cancel_iff] at hlen
        have hrec : sizeOf ss + sizeOf ds < n := by
          simp only [List.cons.sizeOf_spec, Prod.mk.sizeOf_spec] at hsize
          omega
        by_cases hname : sn = dn
        · subst hname
          cases st with
          | file sc sm =>
            cases dt with
            | file dc dm =>
              by_cases hc : sc = dc
              · by_cases hm : sm = dm
                · subst hc; subst hm
                  simp only [doEntriesMatch, doFilesMatch, ne_eq, not_true_eq_false,
                    if_false, FSTree.entryIsDir, Bool.and_self, if_true]
                  rw [ih (sizeOf ss + sizeOf ds) hrec ss ds le_rfl hss hds hlen]
                  simp [entriesMatchSpec, entryPairMatchSpec]
                · simp [doEntriesMatch, doFilesMatch, entriesMatchSpec,
                    entryPairMatchSpec, FSTree.entryIsDir, hc, hm]
              · simp [doEntriesMatch, doFilesMatch, entriesMatchSpec,
                  entryPairMatchSpec, FSTree.entryIsDir, hc]
            | dir de =>
              simp [doEntriesMatch, entriesMatchSpec, entryPairMatchSpec, FSTree.entryIsDir]
            | unreadableDir => simp [noUnreadable] at hdt
          | dir se =>
            cases dt with
            | file dc dm =>
              simp [doEntriesMatch, entriesMatchSpec, entryPairMatchSpec, FSTree.entryIsDir]
            | dir de =>
              simp only [noUnreadable] at hst hdt
              have hrec2 : sizeOf se + sizeOf de < n := by
                simp only [List.cons.sizeOf_spec, Prod.mk.sizeOf_spec,
                  FSTree.dir.sizeOf_spec] at hsize
                omega
              by_cases hlen2 : se.length = de.length
              · have hsub : doFoldersMatch (FSTree.dir se) (FSTree.dir de)
                    = Except.ok (entriesMatchSpec se de) := by
                  simp only [doFoldersMatch, ne_eq, hlen2, not_true_eq_false, if_false]
                  exact ih (sizeOf se + sizeOf de) hrec2 se de le_rfl hst hdt hlen2
                cases hspec : entriesMatchSpec se de
                · rw [hspec] at hsub
                  simp [doEntriesMatch, entriesMatchSpec, entryPairMatchSpec,
                    FSTree.entryIsDir, hsub, hspec]
                · rw [hspec] at hsub
                  simp only [doEntriesMatch, ne_eq, not_true_eq_false, if_false,
                    FSTree.entryIsDir, Bool.and_self, if_true, hsub]
                  rw [ih (sizeOf ss + sizeOf ds) hrec ss ds le_rfl hss hds hlen]
                  simp [entriesMatchSpec, entryPairMatchSpec, hlen2, hspec]
              · have hsub : doFoldersMatch (FSTree.dir se) (FSTree.dir de)
                    = Except.ok false := by
                  simp [doFoldersMatch, hlen2]
                simp [doEntriesMatch, entriesMatchSpec, entryPairMatchSpec,
                  FSTree.entryIsDir, hsub, hlen2]
            | unreadableDir => simp [noUnreadable] at hdt
          | unreadableDir => simp [noUnreadable] at hst
        · simp [doEntriesMatch, entriesMatchSpec, hname]

theorem doFoldersMatch_agrees (a b : FSTree) (ha : noUnreadable a = true)
    (hb : noUnreadable b = true) (hla : listable a = true) (hlb : listable b = true) :
    doFoldersMatch a b = Except.ok (treesMatchSpec a b) := by
  cases a with
  | file _ _ => simp [listable] at hla
  | unreadableDir => simp [listable] at hla
  | dir ae =>
    cases b with
    | file _ _ => simp [listable] at hlb
    | unreadableDir => simp [listable] at hlb
    | dir be =>
      simp only [noUnreadable] at ha hb
      by_cases hlen : ae.length = be.length
      · simp only [doFoldersMatch, ne_eq, hlen, not_true_eq_false, if_false,
          treesMatchSpec, beq_iff_eq, Bool.and_eq_true]
        rw [doEntriesMatch_agrees (sizeOf ae + sizeOf be) ae be le_rfl ha hb hlen]
        simp [hlen]
      · simp [doFoldersMatch, treesMatchSpec, hlen]

/-- C7: the tree comparator.  If both roots are listable directories and no
directory in either tree is unlistable, `doFoldersMatch` succeeds and
returns a match exactly when the spec's recursive criterion holds: equal
entry counts at every level and, for every positional pair, equal names,
equal kinds, recursively matching subtrees for directories and exact
byte-content plus exact modification-timestamp equality for files.  If
either root cannot be listed it fails with an I/O error. -/
theorem treeComparator_spec (a b : FSTree)
    (ha : noUnreadable a = true) (hb : noUnreadable b = true) :
    (listable a = true → listable b = true →
      doFoldersMatch a b = Except.ok (treesMatchSpec a b)) ∧
    (listable a = false ∨ listable b = false → ∃ e, doFoldersMatch a b = Except.error e) := by
  constructor
  · intro hla hlb
    exact doFoldersMatch_agrees a b ha hb hla hlb
  · intro hbad
    cases a with
    | file _ _ => exact ⟨"error reading source directory", by simp [doFoldersMatch]⟩
    | unreadableDir => exact ⟨"error reading source directory", by simp [doFoldersMatch]⟩
    | dir ae =>
      cases b with
      | file _ _ => exact ⟨"error reading destination directory", by simp [doFoldersMatch]⟩
      | unreadableDir => exact ⟨"error reading destination directory", by simp [doFoldersMatch]⟩
      | dir be => rcases hbad with h | h <;> simp [listable] at h

theorem treeComparator_spec_witness :
    ((listable (FSTree.dir [("f", FSTree.file [1, 2] 7)]) = true →
      listable (FSTree.dir [("f", FSTree.file [1, 2] 9)]) = true →
      doFoldersMatch (FSTree.dir [("f", FSTree.file [1, 2] 7)])
          (FSTree.dir [("f", FSTree.file [1, 2] 9)])
        = Except.ok (treesMatchSpec (FSTree.dir [("f", FSTree.file [1, 2] 7)])
            (FSTree.dir [("f", FSTree.file [1, 2] 9)]))) ∧
     (listable (FSTree.dir [("f", FSTree.file [1, 2] 7)]) = false ∨
        listable (FSTree.dir [("f", FSTree.file [1, 2] 9)]) = false →
      ∃ e, doFoldersMatch (FSTree.dir [("f", FSTree.file [1, 2] 7)])
          (FSTree.dir [("f", FSTree.file [1, 2] 9)]) = Except.error e)) ∧
    treesMatchSpec (FSTree.dir [("f", FSTree.file [1, 2] 7)])
      (FSTree.dir [("f", FSTree.file [1, 2] 9)]) = false := by
  constructor
  · exact treeComparator_spec (FSTree.dir [("f", FSTree.file [1, 2] 7)])
      (FSTree.dir [("f", FSTree.file [1, 2] 9)])
      (by simp [noUnreadable, noUnreadableEntries])
      (by simp [noUnreadable, noUnreadableEntries])
  · simp [treesMatchSpec, entriesMatchSpec, entryPairMatchSpec]

/-- Embedding of `createBackupIfBackupIsOutdated` (watcher.go), invoked by
`StartWatcher`.  `sourceTree` is the tree at `w.Source`; `destChild p` the
tree at `filepath.Join(w.Destination, p)`.  Returns `ok true` when a backup
request was sent on `backupRequestChan`, `ok false` when no trigger was
sent, `error` when the comparison failed. -/
def createBackupIfBackupIsOutdated (metadata : List Backup) (sourceTree : FSTree)
    (destChild : String → FSTree) : Except String Bool :=
  match metadata.getLast? with
  | none => Except.ok true
  | some latestBackup =>
    match doFoldersMatch sourceTree (destChild latestBackup.path) with
    | Except.error e => Except.error ("error comparing source and latest backup: " ++ e)
    | Except.ok foldersMatch => Except.ok (!foldersMatch)

/-- C4: on a successful start, an empty loaded history triggers exactly one
initial snapshot unconditionally; a non-empty history compares the source
against the most recent Backup's path with the tree comparator and triggers
a snapshot exactly when they mismatch, so a restart over an
already-accurate latest backup sends no trigger and produces no additional
Backup. -/
theorem start_triggers_initial_or_on_mismatch (metadata : List Backup)
    (sourceTree : FSTree) (destChild : String → FSTree) :
    (metadata = [] → createBackupIfBackupIsOutdated metadata sourceTree destChild
      = Except.ok true) ∧
    (∀ latestBackup, metadata.getLast? = some latestBackup →
      noUnreadable sourceTree = true → noUnreadable (destChild latestBackup.path) = true →
      listable sourceTree = true → listable (destChild latestBackup.path) = true →
      createBackupIfBackupIsOutdated metadata sourceTree destChild
        = Except.ok (!(treesMatchSpec sourceTree (destChild latestBackup.path)))) := by
  constructor
  · intro h
    subst h
    simp [createBackupIfBackupIsOutdated]
  · intro latestBackup hlast ha hb hla hlb
    simp only [createBackupIfBackupIsOutdated, hlast]
    rw [doFoldersMatch_agrees sourceTree (destChild latestBackup.path) ha hb hla hlb]

theorem start_triggers_initial_or_on_mismatch_witness :
    createBackupIfBackupIsOutdated [] (FSTree.dir []) (fun _ => FSTree.dir [])
      = Except.ok true ∧
    createBackupIfBackupIsOutdated [⟨"", 3, "p", false⟩] (FSTree.dir [])
        (fun _ => FSTree.dir [])
      = Except.ok (!(treesMatchSpec (FSTree.dir []) ((fun _ : String => FSTree.dir []) "p"))) := by
  constructor
  · exact (start_triggers_initial_or_on_mismatch [] (FSTree.dir [])
      (fun _ => FSTree.dir [])).1 rfl
  · exact (start_triggers_initial_or_on_mismatch [⟨"", 3, "p", false⟩] (FSTree.dir [])
      (fun _ => FSTree.dir [])).2 ⟨"", 3, "p", false⟩ rfl
      (by simp [noUnreadable, noUnreadableEntries])
      (by simp [noUnreadable, noUnreadableEntries]) rfl rfl


/-!
Configuration validation.  `NewWatcher` (watcher.go) runs `validateName`,
`validateWaitTime`, `validateFolderFormat` and
`validateSourceAndDestination`, joining every produced error into one
aggregate, then loads metadata and joins any load error.  The filesystem
side effects of `validateDir` (stat, MkdirAll) are oracles: their error
lists are inputs, tagged so each slot stays distinguishable in the
aggregate.  Absolute paths (`filepath.Abs` results, which always succeed in
this model) are lists of cleaned components; `filepath.Rel` on two absolute
cleaned paths strips the common prefix and prepends one `..` per remaining
base component, and never fails on such inputs.
-/
inductive DirErr where
  | mkdirFailed (msg : String)
  | invalidPathName (msg : String)
  | notADirectory (path : String)
  | statFailed (msg : String)
deriving DecidableEq

inductive WErr where
  | nameEmpty
  | waitTimeNonPositive
  | folderFormatImprecise
  | sourceDir (e : DirErr)
  | destDir (e : DirErr)
  | formatDir (e : DirErr)
  | sourceSameAsDest
  | destSameAsSource
  | destInsideSource
  | metadataLoadFailure (msg : String)
deriving DecidableEq

/-- Embedding of `validateName`: empty names are rejected. -/
def validateName (name : String) : List WErr :=
  if name = "" then [WErr.nameEmpty] else []

/-- Embedding of `validateWaitTime`: non-positive wait times are rejected. -/
def validateWaitTime (waitTime : Rat) : List WErr :=
  if waitTime ≤ 0 then [WErr.waitTimeNonPositive] else []

/-- Go `int64(x)` conversion from `float64`: truncation toward zero. -/
def goTrunc (q : Rat) : Int :=
  if 0 ≤ q then Int.floor q else Int.ceil q

/-- `seconds := int64(waitTime)` in `validateFolderFormat`. -/
def collisionSeconds (waitTime : Rat) : Int := goTrunc waitTime

/-- `nanoseconds := int64((waitTime - float64(seconds)) * 1e9)` in
`validateFolderFormat`. -/
def collisionNanos (waitTime : Rat) : Int :=
  goTrunc ((waitTime - (collisionSeconds waitTime : Rat)) * 1000000000)

/-- Embedding of `validateFolderFormat`: format `time.Unix(0, 0)` and
`time.Unix(seconds, nanoseconds)` and reject when the rendered strings
collide; then run the directory validation of the format string (oracle
`formatDirErrs`).  `fmtFn sec nsec` models
`time.Unix(sec, nsec).Format(folderFormat)`. -/
def validateFolderFormat (waitTime : Rat) (fmtFn : Int → Int → String)
    (formatDirErrs : List DirErr) : List WErr :=
  (if fmtFn 0 0 = fmtFn (collisionSeconds waitTime) (collisionNanos waitTime)
   then [WErr.folderFormatImprecise] else []) ++ formatDirErrs.map WErr.formatDir

/-- `filepath.Rel` for two cleaned absolute paths given as component lists:
drop the common leading components, then one `..` per base component left,
then the target remainder. -/
def relComponents : List String → List String → List String
  | [], targ => targ
  | base, [] => List.replicate base.length ".."
  | b :: bs, t :: ts =>
    if b = t then relComponents bs ts
    else List.replicate (bs.length + 1) ".." ++ (t :: ts)

/-- The string `filepath.Rel` returns (components joined by the separator,
`.` when none remain). -/
def relString (base targ : List String) : String :=
  let comps := relComponents base targ
  if comps.isEmpty then "." else String.intercalate "/" comps

/-- `strings.HasPrefix` (also the leading-separator test of
`filepath.IsAbs`), character by character. -/
def strStartsWith (s pre : String) : Bool := pre.data.isPrefixOf s.data

/-- Embedding of `validateSourceAndDestination`: generic directory
validation of both paths (oracles), equality check of the absolute paths,
then the nesting check — reject when the relative path from source to
destination is not absolute, does not begin with the characters `..` and is
not `.` (the code literally uses `strings.HasPrefix(relPath, "..")`). -/
def validateSourceAndDestination (sourceDirErrs destDirErrs : List DirErr)
    (absSource absDest : List String) : List WErr :=
  sourceDirErrs.map WErr.sourceDir ++ destDirErrs.map WErr.destDir ++
  (if absSource = absDest then [WErr.sourceSameAsDest, WErr.destSameAsSource] else []) ++
  (if ¬ strStartsWith (relString absSource absDest) "/"
      ∧ ¬ strStartsWith (relString absSource absDest) ".."
      ∧ relString absSource absDest ≠ "."
   then [WErr.destInsideSource] else [])

/-- The filesystem-dependent inputs of one `NewWatcher` call. -/
structure ValidationEnv where
  sourceDirErrs : List DirErr
  destDirErrs : List DirErr
  formatDirErrs : List DirErr
  absSource : List String
  absDest : List String
  metadataLoad : Except String (List Backup)

/-- The aggregated error value `NewWatcher` returns: every validator runs,
their errors are joined in call order, and a metadata load failure is
joined last.  Construction is rejected exactly when this list is
non-empty. -/
def newWatcherErrs (name : String) (waitTime : Rat) (fmtFn : Int → Int → String)
    (env : ValidationEnv) : List WErr :=
  validateName name ++ validateWaitTime waitTime ++
  validateFolderFormat waitTime fmtFn env.formatDirErrs ++
  validateSourceAndDestination env.sourceDirErrs env.destDirErrs env.absSource env.absDest ++
  (match env.metadataLoad with
   | Except.error e => [WErr.metadataLoadFailure e]
   | Except.ok _ => [])

/-- C6 (evaluation): the relational source/destination validation at source
`/a`, destination `/a/..foo` — a child directory literally named `..foo`,
hence a strict descendant of the source.  `filepath.Rel` yields `..foo`,
the code's `strings.HasPrefix(relPath, "..")` test mistakes it for an
ancestor-escaping relative path, and the pair is accepted with no error,
against the documented intent ("The destination must not be inside of
source").  For contrast: an ordinary descendant `/a/b` is rejected, equal
paths are rejected, and a sibling `/b` is accepted. -/
theorem validation_accepts_descendant_named_dotdot :
    relString ["a"] ["a", "..foo"] = "..foo" ∧
    validateSourceAndDestination [] [] ["a"] ["a", "..foo"] = [] ∧
    (∃ rest, rest ≠ [] ∧ ["a"] ++ rest = ["a", "..foo"]) ∧
    validateSourceAndDestination [] [] ["a"] ["a", "b"] = [WErr.destInsideSource] ∧
    validateSourceAndDestination [] [] ["a"] ["a"]
      = [WErr.sourceSameAsDest, WErr.destSameAsSource] ∧
    validateSourceAndDestination [] [] ["a"] ["b"] = [] := by
  exact ⟨by decide, by decide, ⟨["..foo"], by decide, by decide⟩, by decide, by decide,
    by decide⟩

/-- C5: with the name, wait-time, directory and metadata checks all
passing, constructing a watcher config with wait-time `w > 0` is rejected
exactly when formatting the instant `t0 = 0` and the instant
`t0 + w` (as the code computes it: `time.Unix(int64(w), int64((w -
float64(int64(w))) * 1e9))`) yields two identical strings. -/
theorem config_rejected_iff_format_collision (name : String) (waitTime : Rat)
    (fmtFn : Int → Int → String) (env : ValidationEnv)
    (hname : name ≠ "") (hw : 0 < waitTime) (hfmt : env.formatDirErrs = [])
    (hsd : validateSourceAndDestination env.sourceDirErrs env.destDirErrs env.absSource
      env.absDest = [])
    (hmd : ∀ e, env.metadataLoad ≠ Except.error e) :
    newWatcherErrs name waitTime fmtFn env ≠ [] ↔
      fmtFn 0 0 = fmtFn (collisionSeconds waitTime) (collisionNanos waitTime) := by
  have hw2 : ¬ waitTime ≤ 0 := not_le.mpr hw
  unfold newWatcherErrs validateFolderFormat
  rw [hsd, hfmt]
  simp only [validateName, validateWaitTime, hname, hw2, if_false, List.map_nil,
    List.append_nil, List.nil_append]
  cases hml : env.metadataLoad with
  | error e => exact absurd hml (hmd e)
  | ok m =>
    by_cases hcoll : fmtFn 0 0 = fmtFn (collisionSeconds waitTime) (collisionNanos waitTime)
    · simp [hcoll]
    · simp [hcoll]

def cfgFmtW : Int → Int → String := fun sec _ => toString sec

def cfgEnvW : ValidationEnv := ⟨[], [], [], ["s"], ["d"], Except.ok []⟩

theorem config_rejected_iff_format_collision_witness :
    newWatcherErrs "x" 1 cfgFmtW cfgEnvW ≠ [] ↔
      cfgFmtW 0 0 = cfgFmtW (collisionSeconds 1) (collisionNanos 1) :=
  config_rejected_iff_format_collision "x" 1 cfgFmtW cfgEnvW (by decide) (by norm_num)
    rfl (by decide) (fun e h => Except.noConfusion h)

theorem mem_if_singleton {α : Type} (x y : α) (c : Prop) [Decidable c] :
    x ∈ (if c then [y] else ([] : List α)) ↔ c ∧ x = y := by
  by_cases h : c <;> simp [h]

theorem mem_if_pair {α : Type} (x y z : α) (c : Prop) [Decidable c] :
    x ∈ (if c then [y, z] else ([] : List α)) ↔ c ∧ (x = y ∨ x = z) := by
  by_cases h : c <;> simp [h]

/-- C8: `NewWatcher` validation is aggregated and never fail-fast: each
violation appears in the returned aggregate exactly when its own check
fails, independently of every other field — in particular an empty name
together with a non-positive wait-time puts both the name violation and the
wait-time violation into the one returned error. -/
theorem newWatcher_validation_aggregated (name : String) (waitTime : Rat)
    (fmtFn : Int → Int → String) (env : ValidationEnv) :
    (WErr.nameEmpty ∈ newWatcherErrs name waitTime fmtFn env ↔ name = "") ∧
    (WErr.waitTimeNonPositive ∈ newWatcherErrs name waitTime fmtFn env ↔ waitTime ≤ 0) ∧
    (WErr.folderFormatImprecise ∈ newWatcherErrs name waitTime fmtFn env ↔
      fmtFn 0 0 = fmtFn (collisionSeconds waitTime) (collisionNanos waitTime)) ∧
    (WErr.sourceSameAsDest ∈ newWatcherErrs name waitTime fmtFn env ↔
      env.absSource = env.absDest) ∧
    (WErr.destInsideSource ∈ newWatcherErrs name waitTime fmtFn env ↔
      (¬ strStartsWith (relString env.absSource env.absDest) "/" = true
        ∧ ¬ strStartsWith (relString env.absSource env.absDest) ".." = true
        ∧ relString env.absSource env.absDest ≠ ".")) ∧
    (name = "" → waitTime ≤ 0 →
      WErr.nameEmpty ∈ newWatcherErrs name waitTime fmtFn env ∧
      WErr.waitTimeNonPositive ∈ newWatcherErrs name waitTime fmtFn env) := by
  obtain ⟨srcE, dstE, fmtE, aS, aD, ml⟩ := env
  cases ml with
  | error e =>
    simp [newWatcherErrs, validateName, validateWaitTime, validateFolderFormat,
      validateSourceAndDestination, mem_if_singleton, mem_if_pair, List.mem_append,
      List.mem_map]
    exact fun h1 h2 => ⟨h1, h2⟩
  | ok m =>
    simp [newWatcherErrs, validateName, validateWaitTime, validateFolderFormat,
      validateSourceAndDestination, mem_if_singleton, mem_if_pair, List.mem_append,
      List.mem_map]
    exact fun h1 h2 => ⟨h1, h2⟩

theorem newWatcher_validation_aggregated_witness :
    WErr.nameEmpty ∈ newWatcherErrs "" 0 cfgFmtW cfgEnvW ∧
    WErr.waitTimeNonPositive ∈ newWatcherErrs "" 0 cfgFmtW cfgEnvW :=
  (newWatcher_validation_aggregated "" 0 cfgFmtW cfgEnvW).2.2.2.2.2 rfl (by norm_num)

/-!
Observer registry.  Observers are identified by identity (`==` on the
interface value in Go), modelled as `Nat` ids; what a completion callback
does is a list of actions.  `notifyObservers` (watcher.go) takes `w.mu`,
copies the registry into a local slice, and invokes every callback of that
snapshot in order BEFORE releasing the lock (`defer w.mu.Unlock()`).
`AddObserver` and `RemoveObserver` begin with `w.mu.Lock()` on the same
non-reentrant `sync.Mutex`; a callback that calls either of them therefore
blocks forever on a mutex its own goroutine holds.
-/
inductive ObsAction where
  | add (id : Nat)
  | remove (id : Nat)
  | noop
deriving DecidableEq

/-- Embedding of `AddObserver`'s registry update (performed under `w.mu`):
identity-idempotent append. -/
def addObserver (observers : List Nat) (o : Nat) : List Nat :=
  if o ∈ observers then observers else observers ++ [o]

/-- Embedding of `RemoveObserver`'s registry update (performed under
`w.mu`): remove the first matching identity, no-op otherwise. -/
def removeObserver (observers : List Nat) (o : Nat) : List Nat :=
  observers.erase o

/-- Run one callback's actions while the notifying goroutine still holds
`w.mu`: any `AddObserver`/`RemoveObserver` call starts with `w.mu.Lock()`
and never returns (`false` = the goroutine is blocked forever); its
registry update (`addObserver`/`removeObserver`) is never reached.  A
callback that touches no registry operation completes (`true`). -/
def runActionsUnderLock : List ObsAction → Bool
  | [] => true
  | ObsAction.noop :: rest => runActionsUnderLock rest
  | ObsAction.add _ :: _ => false
  | ObsAction.remove _ :: _ => false

inductive PassResult where
  | completed (invoked : List Nat)
  | deadlocked (invoked : List Nat)
deriving DecidableEq

/-- The iteration of `notifyObservers` over the snapshot copy: invoke each
callback in order; stop forever at the first one that dead-locks. -/
def runSnapshot (cbs : Nat → List ObsAction) : List Nat → List Nat → PassResult
  | [], invoked => PassResult.completed invoked
  | o :: rest, invoked =>
    if runActionsUnderLock (cbs o) then runSnapshot cbs rest (invoked ++ [o])
    else PassResult.deadlocked (invoked ++ [o])

inductive NotifyOutcome where
  | completed (finalObservers : List Nat) (invoked : List Nat)
  | deadlocked (invoked : List Nat)
deriving DecidableEq

/-- Embedding of `notifyObservers`: lock `w.mu`, snapshot the registry,
invoke the snapshot's callbacks synchronously in order, unlock.  On
completion the registry is unchanged (no callback can have mutated it —
mutating calls never return). -/
def notifyObserversModel (cbs : Nat → List ObsAction) (reg : List Nat) : NotifyOutcome :=
  match runSnapshot cbs reg [] with
  | PassResult.completed invoked => NotifyOutcome.completed reg invoked
  | PassResult.deadlocked invoked => NotifyOutcome.deadlocked invoked

theorem runSnapshot_all_ok (cbs : Nat → List ObsAction) :
    ∀ rest invoked, (∀ o ∈ rest, runActionsUnderLock (cbs o) = true) →
      runSnapshot cbs rest invoked = PassResult.completed (invoked ++ rest) := by
  intro rest
  induction rest with
  | nil => intro invoked _; simp [runSnapshot]
  | cons r rest ih =>
    intro invoked hall
    have hr : runActionsUnderLock (cbs r) = true := hall r (List.mem_cons_self r rest)
    simp only [runSnapshot, hr, if_true]
    rw [ih (invoked ++ [r]) (fun o ho => hall o (List.mem_cons_of_mem r ho))]
    simp

theorem runSnapshot_blocked (cbs : Nat → List ObsAction) :
    ∀ rest invoked o, o ∈ rest → runActionsUnderLock (cbs o) = false →
      ∃ invoked2, runSnapshot cbs rest invoked = PassResult.deadlocked invoked2 := by
  intro rest
  induction rest with
  | nil => intro invoked o ho _; simp at ho
  | cons r rest ih =>
    intro invoked o ho hbad
    by_cases hr : runActionsUnderLock (cbs r) = true
    · simp only [runSnapshot, hr, if_true]
      rcases List.mem_cons.mp ho with rfl | ho2
      · rw [hr] at hbad; cases hbad
      · exact ih (invoked ++ [r]) o ho2 hbad
    · exact ⟨invoked ++ [r], by simp [runSnapshot, hr]⟩

/-- C9 (amended): observer notification invokes the callbacks of a snapshot
of the registry taken before iteration, synchronously and in registration
order, and leaves the registry unchanged; but the pass runs with `w.mu`
held, so a callback that itself calls `AddObserver` or `RemoveObserver`
does not complete — it deadlocks the notification pass on the watcher's
own non-reentrant mutex. -/
theorem notify_snapshot_order_under_held_mutex (cbs : Nat → List ObsAction)
    (reg : List Nat) :
    ((∀ o ∈ reg, runActionsUnderLock (cbs o) = true) →
      notifyObserversModel cbs reg = NotifyOutcome.completed reg reg) ∧
    (∀ o ∈ reg, runActionsUnderLock (cbs o) = false →
      ∃ invoked, notifyObserversModel cbs reg = NotifyOutcome.deadlocked invoked) := by
  constructor
  · intro hall
    unfold notifyObserversModel
    rw [runSnapshot_all_ok cbs reg [] hall]
    simp
  · intro o ho hbad
    obtain ⟨invoked2, h2⟩ := runSnapshot_blocked cbs reg [] o ho hbad
    exact ⟨invoked2, by unfold notifyObserversModel; rw [h2]⟩

def cbsReregister : Nat → List ObsAction := fun i =>
  if i = 0 then [ObsAction.add 1] else []

theorem notify_snapshot_order_under_held_mutex_witness :
    notifyObserversModel (fun _ => []) [5, 3] = NotifyOutcome.completed [5, 3] [5, 3] ∧
    ∃ invoked, notifyObserversModel cbsReregister [0] = NotifyOutcome.deadlocked invoked := by
  constructor
  · exact (notify_snapshot_order_under_held_mutex (fun _ => []) [5, 3]).1 (fun o _ => rfl)
  · exact (notify_snapshot_order_under_held_mutex cbsReregister [0]).2 0 (by decide)
      (by decide)

/-- C9 (counterexample): a single registered observer whose completion
callback re-registers via `AddObserver` dead-locks the notification pass —
refuting the claim that a callback may safely re-register or unregister
without deadlocking.  `notifyObservers` still holds `w.mu` while invoking
the callback, and `AddObserver` begins by locking the same mutex. -/
theorem notify_callback_reregister_deadlocks :
    notifyObserversModel cbsReregister [0] = NotifyOutcome.deadlocked [0] := by decide
